import Mathlib

/-!
Verification of the offer-ranking core of the Quick Deals shopping assistant
(`app.py`, `train_and_rank.py`).

The embedding below translates the DataFrame-based inference code of
`app.py::infer_topk` and the flattening/guard logic of `app.py::chat` into
plain Lean definitions:

* a flattened offer (one DataFrame row) becomes the structure `Row`; a missing
  value (Python `None`, pandas `NaN`) is `Option.none`, numbers are `ℚ`;
* the fallback branch (lines 69-77) becomes `fallbackPass`:
  `pd.to_numeric(df.get(c, d)).fillna(d)` is `Option.getD`, `Series.max` on a
  non-empty NaN-free column is `colMax`, and the float constants `0.4`, `0.3`,
  `1e-6` are read as the exact rationals they denote in the source text;
* `df.sort_values("_pred_score", ascending=False).head(k)` (line 93) becomes
  `sortValuesDesc` followed by `List.take k`.  pandas' `nargsort` with
  `ascending=False` reverses the column, argsorts it ascending and reverses the
  result, so whenever the underlying argsort kernel is stable (numpy uses
  insertion sort for the sub-arrays of at most 16 elements that a per-product
  offer batch produces) the net effect is the stable descending sort, which
  `List.insertionSort` with the ≥-by-score relation computes.  For larger
  batches the default `kind='quicksort'` leaves the order of tied rows
  implementation-defined; the model fixes the stable refinement, and the
  theorems proved about the sort (row count, non-increasing scores) hold for
  every refinement of the tie order;
* the learned-model branch (lines 78-91) manipulates columns by name, so it is
  modelled on `DF`, a dataframe with a column-name list and function-valued
  rows; the fitted preprocessing transform and the regressor apply row-wise at
  inference time and are abstracted as a per-row prediction function.
-/

/-- One flattened offer row, as built by `app.py::chat` (lines 145-169):
model features joined from product, offer and variant specifications, plus the
display-only fields, plus the `_pred_score` column added by `infer_topk`
(absent, i.e. `none`, until scoring runs). -/
structure Row where
  product_name : String
  brand : Option String
  price : Option ℚ
  rating : Option ℚ
  rating_count : Option ℚ
  delivery_in_days : Option ℚ
  is_trusted_seller : Option Bool
  RAM_GB : Option ℚ
  warranty_months : Option ℚ
  is_replaceable : Option Bool
  Color : Option String
  seller_name : Option String
  pred_score : Option ℚ
deriving DecidableEq

/-- `pd.to_numeric(df['price']).fillna(1)` on one cell (line 69). -/
def defP (r : Row) : ℚ := r.price.getD 1

/-- `pd.to_numeric(df['rating']).fillna(0)` on one cell (line 70). -/
def defR (r : Row) : ℚ := r.rating.getD 0

/-- `pd.to_numeric(df['delivery_in_days']).fillna(3)` on one cell (line 71). -/
def defD (r : Row) : ℚ := r.delivery_in_days.getD 3

/-- The `1e-6` constant of lines 74 and 76. -/
def epsQ : ℚ := 1 / 1000000

/-- `Series.max` of a NaN-free column: maximum of a non-empty list (the `[]`
case is never reached from `chat`, which guards against empty batches). -/
def colMax : List ℚ → ℚ
  | [] => 0
  | x :: xs => xs.foldl max x

/-- Lines 69-71 of `infer_topk`: the in-place overwrite of the `price`,
`rating` and `delivery_in_days` columns with their coerced/defaulted values. -/
def fillRow (r : Row) : Row :=
  { r with price := some (defP r), rating := some (defR r),
           delivery_in_days := some (defD r) }

/-- Lines 73-77 of `infer_topk`: the fallback score of one (already filled)
row, given the maxima of the filled `price` and `delivery_in_days` columns. -/
def fallbackScore (maxP maxD : ℚ) (r : Row) : ℚ :=
  (0.4 : ℚ) * (1 - r.price.getD 1 / (maxP + epsQ)) +
  (0.3 : ℚ) * (r.rating.getD 0 / 5) +
  (0.3 : ℚ) * (1 - r.delivery_in_days.getD 3 / (maxD + epsQ))

/-- Lines 69-77 of `infer_topk` in fallback mode: fill the three numeric
columns in place, then assign the `_pred_score` column from the formula, whose
maxima (`df["price"].max()`, `df["delivery_in_days"].max()`) are taken over
the just-filled columns of the current batch. -/
def fallbackPass (rows : List Row) : List Row :=
  (rows.map fillRow).map (fun r =>
    { r with pred_score := some (fallbackScore
        (colMax ((rows.map fillRow).map (fun s => s.price.getD 1)))
        (colMax ((rows.map fillRow).map (fun s => s.delivery_in_days.getD 3)))
        r) })

/-- The `_pred_score` column of a scored batch, in row order. -/
def scoresOf (rows : List Row) : List (Option ℚ) :=
  (fallbackPass rows).map (fun r => r.pred_score)

/-- The sort key of line 93: the row's `_pred_score` value. -/
def scoreVal (r : Row) : ℚ := r.pred_score.getD 0

/-- Descending comparison on the `_pred_score` column. -/
def scoreGE (a b : Row) : Prop := scoreVal b ≤ scoreVal a

instance : DecidableRel scoreGE :=
  fun a b => inferInstanceAs (Decidable (scoreVal b ≤ scoreVal a))

instance : IsTotal Row scoreGE := ⟨fun a b => le_total (scoreVal b) (scoreVal a)⟩

instance : IsTrans Row scoreGE := ⟨fun _ _ _ hab hbc => le_trans hbc hab⟩

/-- `df.sort_values("_pred_score", ascending=False)` (line 93): pandas'
`nargsort` reverses the column, stable-argsorts ascending and reverses back,
i.e. (for a stable argsort kernel) the stable descending sort by score. -/
def sortValuesDesc (rows : List Row) : List Row :=
  List.insertionSort scoreGE rows

/-- `infer_topk(df, k)` in fallback mode.  First component: the batch after
the pass (the caller's DataFrame, which `infer_topk` mutates through the
shared reference); second component: the returned
`df.sort_values("_pred_score", ascending=False).head(k)`. -/
def inferTopkFallback (rows : List Row) (k : Nat) : List Row × List Row :=
  let scored := fallbackPass rows
  (scored, (sortValuesDesc scored).take k)

/-- Sample rows used to instantiate the hypotheses of the claims below. -/
def rowA : Row :=
  ⟨"a", none, some 100, some 5, none, some 1, none, none, none, none,
    none, none, none⟩

def rowB : Row :=
  ⟨"b", none, some 300, some 4, none, some 2, none, none, none, none,
    none, none, none⟩

/-- A row with all three scoring fields absent. -/
def rowNone : Row :=
  ⟨"n", none, none, none, none, none, none, none, none, none, none, none, none⟩

/-- One DataFrame cell: `NaN`, a number, a string or a boolean. -/
inductive Cell where
  | nan : Cell
  | num : ℚ → Cell
  | str : String → Cell
  | boolean : Bool → Cell
deriving DecidableEq

/-- A DataFrame row of the string-keyed model: a total assignment of cells to
column names (only the names listed in `DF.cols` are considered present). -/
abbrev DRow := String → Cell

/-- A DataFrame: the list of column names, and the rows. -/
structure DF where
  cols : List String
  rows : List DRow

/-- The name of the score column added on lines 73 and 91. -/
def predCol : String := "_pred_score"

/-- `df[col] = np.nan` for a brand-new column `col` (line 84). -/
def addColNaN (df : DF) (c : String) : DF :=
  { cols := df.cols ++ [c],
    rows := df.rows.map (fun r => Function.update r c Cell.nan) }

/-- Lines 82-84: `for col in feature_names: if col not in df.columns:
df[col] = np.nan`. -/
def addMissingFeatures (featNames : List String) (df : DF) : DF :=
  featNames.foldl (fun d c => if c ∈ d.cols then d else addColNaN d c) df

/-- `df[feature_names]` (line 87): select/reorder columns, `KeyError` (here
`none`) when a requested column does not exist. -/
def selectCols (df : DF) (names : List String) : Option DF :=
  if ∀ c ∈ names, c ∈ df.cols then some ⟨names, df.rows⟩ else none

/-- `df["_pred_score"] = preds` (line 91): set the column on every row, adding
the column name if it is new. -/
def setScoreCol (df : DF) (preds : List ℚ) : DF :=
  { cols := if predCol ∈ df.cols then df.cols else df.cols ++ [predCol],
    rows := (df.rows.zip preds).map
      (fun rp => Function.update rp.1 predCol (Cell.num rp.2)) }

/-- Lines 78-91 of `infer_topk`: the learned-model scoring pass, with
`preproc.transform ∘ model.predict` abstracted as `predictRow` applied to the
cells of the row in `feature_names_in_` order. -/
def learnedScorePass (featNames : List String) (predictRow : List Cell → ℚ)
    (df : DF) : Option DF :=
  let df2 := addMissingFeatures featNames df
  match selectCols df2 featNames with
  | none => none
  | some dfm =>
      some (setScoreCol df2 (dfm.rows.map (fun r => predictRow (featNames.map r))))

/-- A concrete one-row DataFrame holding only a `price` column. -/
def dfW : DF := ⟨["price"], [fun _ => Cell.num 5]⟩

/-- The (defaulted) projection of a row to the only three fields the fallback
branch reads. -/
def dproj (r : Row) : ℚ × ℚ × ℚ := (defP r, defR r, defD r)

/-- The fallback score column as a function of the projected columns alone. -/
def scoresFromProj (ts : List (ℚ × ℚ × ℚ)) : List (Option ℚ) :=
  ts.map (fun t =>
    some ((0.4 : ℚ) * (1 - t.1 / (colMax (ts.map (fun s => s.1)) + epsQ)) +
          (0.3 : ℚ) * (t.2.1 / 5) +
          (0.3 : ℚ) * (1 - t.2.2 / (colMax (ts.map (fun s => s.2.2)) + epsQ))))

/-- `rowA` with every non-scoring field changed. -/
def rowA' : Row :=
  ⟨"other", some "Acme", some 100, some 5, some 77, some 1, some true,
    some 16, some 24, some true, some "red", some "BestSeller", none⟩

/-- One seller offer, as read by the flattening loop (`offer.get(...)`). -/
structure Offer where
  seller_name : Option String
  price : Option ℚ
  rating : Option ℚ
  rating_count : Option ℚ
  delivery_in_days : Option ℚ
  is_trusted_seller : Option Bool
deriving DecidableEq

/-- A variant's specifications mapping (`variant.get("specifications", {})`). -/
structure Specifications where
  RAM_GB : Option ℚ
  Storage_GB : Option ℚ
  Color : Option String
  warranty_months : Option ℚ
  is_replaceable : Option Bool
deriving DecidableEq

/-- A product variant with its list of offers. -/
structure Variant where
  variant_id : Option String
  specifications : Specifications
  offers : List Offer
deriving DecidableEq

/-- A catalog entry (`products.json` product object). -/
structure Product where
  product_name : String
  brand : Option String
  variants : List Variant
deriving DecidableEq

/-- Lines 145-169: one flattened feature row for one offer, joining offer
fields, the parent variant's specifications and the product's brand/name
(display-only formatting of the specifications dict is presentation and is
not part of the scored columns). -/
def offerRow (p : Product) (specs : Specifications) (o : Offer) : Row :=
  { product_name := p.product_name
    brand := p.brand
    price := o.price
    rating := o.rating
    rating_count := o.rating_count
    delivery_in_days := o.delivery_in_days
    is_trusted_seller := o.is_trusted_seller
    RAM_GB := specs.RAM_GB
    warranty_months := specs.warranty_months
    is_replaceable := specs.is_replaceable
    Color := specs.Color
    seller_name := o.seller_name
    pred_score := none }

/-- Lines 141-169: the flattening loop over `product["variants"]` and each
variant's `offers`. -/
def flattenOffers (p : Product) : List Row :=
  p.variants.flatMap (fun v => v.offers.map (offerRow p v.specifications))

/-- The three distinct outcomes of the `/chat` handler after a product was
looked up: no close name match (line 137), a matched entry with no offers
(line 172), or a ranking of the flattened offers (line 177). -/
inductive ChatOutcome where
  | notFound : ChatOutcome
  | noOffers : String → ChatOutcome
  | ranking : List Row → ChatOutcome
deriving DecidableEq

/-- Lines 135-177 of `chat` (ranking path, fallback strategy active): flatten
the matched product's offers; if the list is empty answer the no-offers
message without calling `infer_topk`; otherwise rank. -/
def chatRank (matched : Option Product) (k : Nat) : ChatOutcome :=
  match matched with
  | none => ChatOutcome.notFound
  | some p =>
      if flattenOffers p = [] then ChatOutcome.noOffers p.product_name
      else ChatOutcome.ranking (inferTopkFallback (flattenOffers p) k).2

/-- A product with one variant that has no offers. -/
def prodW : Product :=
  ⟨"Phone X", some "Acme", [⟨some "v1", ⟨none, none, none, none, none⟩, []⟩]⟩

theorem fillRow_price (r : Row) : (fillRow r).price = some (defP r) := rfl

theorem fillRow_rating (r : Row) : (fillRow r).rating = some (defR r) := rfl

theorem fillRow_delivery (r : Row) :
    (fillRow r).delivery_in_days = some (defD r) := rfl

/-- The filled `price` column is the defaulted-price column of the input. -/
theorem filled_price_col (rows : List Row) :
    (rows.map fillRow).map (fun s => s.price.getD 1) = rows.map defP := by
  simp [List.map_map, Function.comp_def, fillRow_price]

/-- The filled `delivery_in_days` column is the defaulted-delivery column. -/
theorem filled_delivery_col (rows : List Row) :
    (rows.map fillRow).map (fun s => s.delivery_in_days.getD 3) =
      rows.map defD := by
  simp [List.map_map, Function.comp_def, fillRow_delivery]

/-- The `_pred_score` column produced by the fallback pass, row by row: each
row gets the closed-form score, with both maxima taken over the defaulted
columns of the batch. -/
theorem scoresOf_eq (rows : List Row) :
    scoresOf rows = rows.map (fun r =>
      some ((0.4 : ℚ) * (1 - defP r / (colMax (rows.map defP) + epsQ)) +
            (0.3 : ℚ) * (defR r / 5) +
            (0.3 : ℚ) * (1 - defD r / (colMax (rows.map defD) + epsQ)))) := by
  unfold scoresOf fallbackPass
  rw [filled_price_col, filled_delivery_col]
  simp [List.map_map, Function.comp_def, fallbackScore, fillRow_price,
    fillRow_rating, fillRow_delivery]

/-- Two batches whose columns agree after the fill step get identical fallback
results. -/
theorem fallbackPass_congr (rows₁ rows₂ : List Row)
    (h : rows₁.map fillRow = rows₂.map fillRow) :
    fallbackPass rows₁ = fallbackPass rows₂ := by
  unfold fallbackPass
  rw [h]

/-- Claim C1: in fallback mode every row of a non-empty batch is scored
`0.4 * (1 - price / (max_price + 1e-6)) + 0.3 * (rating / 5) +
 0.3 * (1 - delivery / (max_delivery + 1e-6))`, the maxima being taken over
the defaulted `price` and `delivery_in_days` columns of the batch. -/
theorem fallback_formula_per_row (rows : List Row) (h : rows ≠ []) :
    scoresOf rows = rows.map (fun r =>
      some ((0.4 : ℚ) * (1 - defP r / (colMax (rows.map defP) + epsQ)) +
            (0.3 : ℚ) * (defR r / 5) +
            (0.3 : ℚ) * (1 - defD r / (colMax (rows.map defD) + epsQ)))) :=
  scoresOf_eq rows

theorem fallback_formula_per_row_witness :
    scoresOf [rowA, rowB] = [rowA, rowB].map (fun r =>
      some ((0.4 : ℚ) * (1 - defP r / (colMax ([rowA, rowB].map defP) + epsQ)) +
            (0.3 : ℚ) * (defR r / 5) +
            (0.3 : ℚ) * (1 - defD r / (colMax ([rowA, rowB].map defD) + epsQ)))) :=
  fallback_formula_per_row [rowA, rowB] (by decide)

theorem fillRow_price_none {r : Row} (h : r.price = none) :
    fillRow r = fillRow { r with price := some 1 } := by
  obtain ⟨pn, br, pr, rt, rc, dd, ts, ram, wm, ir, co, sn, ps⟩ := r
  simp only at h
  subst h
  rfl

theorem fillRow_rating_none {r : Row} (h : r.rating = none) :
    fillRow r = fillRow { r with rating := some 0 } := by
  obtain ⟨pn, br, pr, rt, rc, dd, ts, ram, wm, ir, co, sn, ps⟩ := r
  simp only at h
  subst h
  rfl

theorem fillRow_delivery_none {r : Row} (h : r.delivery_in_days = none) :
    fillRow r = fillRow { r with delivery_in_days := some 3 } := by
  obtain ⟨pn, br, pr, rt, rc, dd, ts, ram, wm, ir, co, sn, ps⟩ := r
  simp only at h
  subst h
  rfl

theorem scoresOf_middle_congr {r r' : Row} (pre post : List Row)
    (h : fillRow r = fillRow r') :
    scoresOf (pre ++ r :: post) = scoresOf (pre ++ r' :: post) := by
  unfold scoresOf
  rw [fallbackPass_congr (pre ++ r :: post) (pre ++ r' :: post)
    (by simp [List.map_append, h])]

/-- Claim C5: under the fallback heuristic a row with absent `price` is scored
exactly as if `price = 1`, one with absent `rating` as if `rating = 0`, and one
with absent `delivery_in_days` as if `delivery_in_days = 3` — regardless of
where the row sits in the batch. -/
theorem fallback_absent_field_defaults :
    (∀ (pre post : List Row) (r : Row), r.price = none →
      scoresOf (pre ++ r :: post) =
        scoresOf (pre ++ { r with price := some 1 } :: post)) ∧
    (∀ (pre post : List Row) (r : Row), r.rating = none →
      scoresOf (pre ++ r :: post) =
        scoresOf (pre ++ { r with rating := some 0 } :: post)) ∧
    (∀ (pre post : List Row) (r : Row), r.delivery_in_days = none →
      scoresOf (pre ++ r :: post) =
        scoresOf (pre ++ { r with delivery_in_days := some 3 } :: post)) :=
  ⟨fun pre post r h => scoresOf_middle_congr pre post (fillRow_price_none h),
   fun pre post r h => scoresOf_middle_congr pre post (fillRow_rating_none h),
   fun pre post r h => scoresOf_middle_congr pre post (fillRow_delivery_none h)⟩

theorem fallback_absent_field_defaults_witness :
    scoresOf ([rowA] ++ rowNone :: [rowB]) =
      scoresOf ([rowA] ++ { rowNone with price := some 1 } :: [rowB]) ∧
    scoresOf ([rowA] ++ rowNone :: [rowB]) =
      scoresOf ([rowA] ++ { rowNone with rating := some 0 } :: [rowB]) ∧
    scoresOf ([rowA] ++ rowNone :: [rowB]) =
      scoresOf ([rowA] ++ { rowNone with delivery_in_days := some 3 } :: [rowB]) :=
  ⟨fallback_absent_field_defaults.1 [rowA] [rowB] rowNone (by decide),
   fallback_absent_field_defaults.2.1 [rowA] [rowB] rowNone (by decide),
   fallback_absent_field_defaults.2.2 [rowA] [rowB] rowNone (by decide)⟩

/-- Claim C4: there are rows `A`, `B` with different `price` (or delivery)
such that `A`'s fallback score in the batch `[A, B]` differs from `A`'s
fallback score in the singleton batch `[A]`: the maxima are per-batch. -/
theorem fallback_batch_relative :
    ∃ A B : Row,
      (B.price ≠ A.price ∨ B.delivery_in_days ≠ A.delivery_in_days) ∧
      (scoresOf [A, B]).head? ≠ (scoresOf [A]).head? := by
  refine ⟨rowA, rowB, Or.inl (by decide), ?_⟩
  rw [scoresOf_eq, scoresOf_eq]
  norm_num [rowA, rowB, defP, defR, defD, colMax, epsQ, max_def]

theorem fallbackPass_length (rows : List Row) :
    (fallbackPass rows).length = rows.length := by
  simp [fallbackPass]

theorem sortValuesDesc_length (l : List Row) :
    (sortValuesDesc l).length = l.length :=
  (List.perm_insertionSort scoreGE l).length_eq

theorem sortValuesDesc_sorted (l : List Row) :
    List.Sorted scoreGE (sortValuesDesc l) :=
  List.sorted_insertionSort scoreGE l

theorem fallbackPass_scored {rows : List Row} {r : Row}
    (h : r ∈ fallbackPass rows) : r.pred_score.isSome := by
  simp only [fallbackPass, List.mem_map] at h
  obtain ⟨s, _, rfl⟩ := h
  rfl

/-- Claim C2: on any non-empty batch, `infer_topk` returns exactly
`min k (number of rows)` rows, each carrying a score, ordered so the
`_pred_score` values never increase from one row to the next. -/
theorem topk_count_and_sorted (rows : List Row) (k : Nat) (h : rows ≠ []) :
    (inferTopkFallback rows k).2.length = min k rows.length ∧
    List.Sorted scoreGE (inferTopkFallback rows k).2 ∧
    ∀ r ∈ (inferTopkFallback rows k).2, r.pred_score.isSome := by
  refine ⟨?_, ?_, ?_⟩
  · show ((sortValuesDesc (fallbackPass rows)).take k).length = min k rows.length
    rw [List.length_take, sortValuesDesc_length, fallbackPass_length]
  · exact (sortValuesDesc_sorted (fallbackPass rows)).sublist
      (List.take_sublist k _)
  · intro r hr
    have hr' : r ∈ sortValuesDesc (fallbackPass rows) :=
      (List.take_sublist k _).subset hr
    exact fallbackPass_scored
      ((List.perm_insertionSort scoreGE (fallbackPass rows)).subset hr')

theorem topk_count_and_sorted_witness :
    (inferTopkFallback [rowA, rowB] 1).2.length =
      min 1 ([rowA, rowB] : List Row).length ∧
    List.Sorted scoreGE (inferTopkFallback [rowA, rowB] 1).2 ∧
    ∀ r ∈ (inferTopkFallback [rowA, rowB] 1).2, r.pred_score.isSome :=
  topk_count_and_sorted [rowA, rowB] 1 (by decide)

theorem addMissingFeatures_nil (df : DF) : addMissingFeatures [] df = df := rfl

theorem addMissingFeatures_cons (c : String) (ns : List String) (df : DF) :
    addMissingFeatures (c :: ns) df =
      addMissingFeatures ns (if c ∈ df.cols then df else addColNaN df c) := rfl

theorem addMissingFeatures_rows_length (ns : List String) (df : DF) :
    (addMissingFeatures ns df).rows.length = df.rows.length := by
  induction ns generalizing df with
  | nil => rfl
  | cons c ns ih =>
      rw [addMissingFeatures_cons]
      by_cases h : c ∈ df.cols
      · simp [h, ih]
      · simp [h, ih, addColNaN]

theorem addMissingFeatures_cols_mono (ns : List String) (df : DF) {c : String}
    (h : c ∈ df.cols) : c ∈ (addMissingFeatures ns df).cols := by
  induction ns generalizing df with
  | nil => exact h
  | cons n ns ih =>
      rw [addMissingFeatures_cons]
      by_cases hn : n ∈ df.cols
      · rw [if_pos hn]
        exact ih _ h
      · rw [if_neg hn]
        exact ih _ (by simp [addColNaN, h])

theorem addMissingFeatures_cols_mem (ns : List String) (df : DF) {c : String}
    (h : c ∈ ns) : c ∈ (addMissingFeatures ns df).cols := by
  induction ns generalizing df with
  | nil => cases h
  | cons n ns ih =>
      rw [addMissingFeatures_cons]
      rcases List.mem_cons.mp h with rfl | hc
      · by_cases hn : c ∈ df.cols
        · rw [if_pos hn]
          exact addMissingFeatures_cols_mono ns df hn
        · rw [if_neg hn]
          exact addMissingFeatures_cols_mono ns _ (by simp [addColNaN])
      · by_cases hn : n ∈ df.cols
        · rw [if_pos hn]
          exact ih _ hc
        · rw [if_neg hn]
          exact ih _ hc

/-- Once a column is present with a constant value on every row, later
missing-feature injections never change it. -/
theorem addMissingFeatures_keep (ns : List String) (df : DF) {c : String}
    {v : Cell} (hc : c ∈ df.cols) (hv : ∀ r ∈ df.rows, r c = v) :
    ∀ r ∈ (addMissingFeatures ns df).rows, r c = v := by
  induction ns generalizing df with
  | nil => exact hv
  | cons n ns ih =>
      rw [addMissingFeatures_cons]
      by_cases hn : n ∈ df.cols
      · rw [if_pos hn]
        exact ih _ hc hv
      · have hne : n ≠ c := fun h => hn (h ▸ hc)
        rw [if_neg hn]
        refine ih _ (by simp [addColNaN, hc]) ?_
        intro r hr
        simp only [addColNaN, List.mem_map] at hr
        obtain ⟨s, hs, rfl⟩ := hr
        rw [Function.update_noteq (Ne.symm hne)]
        exact hv s hs

/-- A feature column that was absent from the input is injected as NaN on
every row. -/
theorem addMissingFeatures_nan (ns : List String) (df : DF) {c : String}
    (hc : c ∈ ns) (hdf : c ∉ df.cols) :
    ∀ r ∈ (addMissingFeatures ns df).rows, r c = Cell.nan := by
  induction ns generalizing df with
  | nil => cases hc
  | cons n ns ih =>
      rw [addMissingFeatures_cons]
      by_cases hn : n ∈ df.cols
      · rw [if_pos hn]
        have hcn : c ∈ ns := by
          rcases List.mem_cons.mp hc with rfl | h
          · exact absurd hn hdf
          · exact h
        exact ih _ hcn hdf
      · rw [if_neg hn]
        by_cases hcn : c = n
        · subst hcn
          refine addMissingFeatures_keep ns _ (by simp [addColNaN]) ?_
          intro r hr
          simp only [addColNaN, List.mem_map] at hr
          obtain ⟨s, _, rfl⟩ := hr
          exact Function.update_same c Cell.nan s
        · have hcs : c ∈ ns := by
            rcases List.mem_cons.mp hc with rfl | h
            · exact absurd rfl hcn
            · exact h
          refine ih _ hcs ?_
          simp only [addColNaN, List.mem_append, List.mem_singleton]
          rintro (h | h)
          · exact hdf h
          · exact hcn h

theorem selectCols_of_all_mem (df : DF) (names : List String)
    (h : ∀ c ∈ names, c ∈ df.cols) :
    selectCols df names = some ⟨names, df.rows⟩ := by
  unfold selectCols
  rw [if_pos h]

theorem setScoreCol_rows_length (df : DF) (preds : List ℚ) :
    (setScoreCol df preds).rows.length = min df.rows.length preds.length := by
  simp [setScoreCol]

/-- Claim C7: on the learned-model branch, every required feature name absent
from the input is injected as a NaN column, `df[feature_names]` succeeds and
yields exactly the columns in `feature_names_in_` order, scoring never raises
(the pass always returns a DataFrame), and the output has exactly as many rows
as the input. -/
theorem learned_injects_and_preserves_rows (featNames : List String)
    (predictRow : List Cell → ℚ) (df : DF) (h : df.rows ≠ []) :
    (∀ c ∈ featNames, c ∉ df.cols →
      ∀ r ∈ (addMissingFeatures featNames df).rows, r c = Cell.nan) ∧
    selectCols (addMissingFeatures featNames df) featNames =
      some ⟨featNames, (addMissingFeatures featNames df).rows⟩ ∧
    ∃ out, learnedScorePass featNames predictRow df = some out ∧
      out.rows.length = df.rows.length := by
  have hmem : ∀ c ∈ featNames, c ∈ (addMissingFeatures featNames df).cols :=
    fun c hc => addMissingFeatures_cols_mem featNames df hc
  have hsel := selectCols_of_all_mem (addMissingFeatures featNames df)
    featNames hmem
  refine ⟨fun c hc hdf => addMissingFeatures_nan featNames df hc hdf,
    hsel, ?_⟩
  refine ⟨setScoreCol (addMissingFeatures featNames df)
    (((addMissingFeatures featNames df).rows).map
      (fun r => predictRow (featNames.map r))), ?_, ?_⟩
  · simp only [learnedScorePass, hsel]
  · rw [setScoreCol_rows_length, List.length_map,
      addMissingFeatures_rows_length, Nat.min_self]

theorem learned_injects_and_preserves_rows_witness :
    (∀ c ∈ ["price", "rating"], c ∉ dfW.cols →
      ∀ r ∈ (addMissingFeatures ["price", "rating"] dfW).rows, r c = Cell.nan) ∧
    selectCols (addMissingFeatures ["price", "rating"] dfW) ["price", "rating"] =
      some ⟨["price", "rating"], (addMissingFeatures ["price", "rating"] dfW).rows⟩ ∧
    ∃ out, learnedScorePass ["price", "rating"] (fun _ => 0) dfW = some out ∧
      out.rows.length = dfW.rows.length :=
  learned_injects_and_preserves_rows ["price", "rating"] (fun _ => 0) dfW
    (by simp [dfW])

theorem fillRow_idem (r : Row) : fillRow (fillRow r) = fillRow r := rfl

theorem fillRow_update_pred (q : Row) (s : Option ℚ) :
    fillRow { q with pred_score := s } = { fillRow q with pred_score := s } :=
  rfl

theorem fallbackPass_def (rows : List Row) :
    fallbackPass rows = (rows.map fillRow).map (fun r =>
      { r with pred_score := some (fallbackScore
          (colMax ((rows.map fillRow).map (fun s => s.price.getD 1)))
          (colMax ((rows.map fillRow).map (fun s => s.delivery_in_days.getD 3)))
          r) }) := rfl

/-- The rows of a fallback-scored batch are already filled: filling them again
changes nothing. -/
theorem fallbackPass_map_fillRow (rows : List Row) :
    (fallbackPass rows).map fillRow = fallbackPass rows := by
  rw [fallbackPass_def]
  simp only [List.map_map]
  exact List.map_congr_left (fun a _ => rfl)

/-- The `price` column of a fallback-scored batch, defaulted once more, is the
defaulted `price` column of the original batch. -/
theorem fallbackPass_price_col (rows : List Row) :
    (fallbackPass rows).map (fun s => s.price.getD 1) = rows.map defP := by
  rw [fallbackPass_def, List.map_map, List.map_map]
  exact List.map_congr_left (fun a _ => rfl)

theorem fallbackPass_delivery_col (rows : List Row) :
    (fallbackPass rows).map (fun s => s.delivery_in_days.getD 3) =
      rows.map defD := by
  rw [fallbackPass_def, List.map_map, List.map_map]
  exact List.map_congr_left (fun a _ => rfl)

/-- Re-running the fallback pass on the already-mutated DataFrame reproduces
it exactly: the defaulting is idempotent and the recomputed maxima agree. -/
theorem fallbackPass_idem (rows : List Row) :
    fallbackPass (fallbackPass rows) = fallbackPass rows := by
  conv_lhs => rw [fallbackPass_def]
  rw [fallbackPass_map_fillRow, fallbackPass_price_col,
    fallbackPass_delivery_col]
  conv_lhs => rw [fallbackPass_def]
  conv_rhs => rw [fallbackPass_def]
  rw [filled_price_col, filled_delivery_col]
  simp only [List.map_map]
  exact List.map_congr_left (fun a _ => rfl)

/-- When every requested feature column already exists, the injection loop of
lines 82-84 is a no-op. -/
theorem addMissingFeatures_id (ns : List String) (df : DF)
    (h : ∀ c ∈ ns, c ∈ df.cols) : addMissingFeatures ns df = df := by
  induction ns generalizing df with
  | nil => rfl
  | cons n ns ih =>
      rw [addMissingFeatures_cons, if_pos (h n (List.mem_cons_self n ns))]
      exact ih _ (fun c hc => h c (List.mem_cons_of_mem n hc))

theorem map_update_not_mem (ns : List String) (r : DRow) (x : String)
    (v : Cell) (h : x ∉ ns) : ns.map (Function.update r x v) = ns.map r := by
  refine List.map_congr_left (fun c hc => ?_)
  have hne : c ≠ x := fun he => h (by rw [← he]; exact hc)
  exact Function.update_noteq hne v r

/-- The learned pass never fails: the preceding injection loop guarantees the
column selection succeeds. -/
theorem learnedScorePass_eq (featNames : List String)
    (predictRow : List Cell → ℚ) (df : DF) :
    learnedScorePass featNames predictRow df =
      some (setScoreCol (addMissingFeatures featNames df)
        ((addMissingFeatures featNames df).rows.map
          (fun r => predictRow (featNames.map r)))) := by
  simp only [learnedScorePass,
    selectCols_of_all_mem _ _
      (fun c hc => addMissingFeatures_cols_mem featNames df hc)]

theorem setScoreCol_cols_sup (df : DF) (preds : List ℚ) {c : String}
    (h : c ∈ df.cols) : c ∈ (setScoreCol df preds).cols := by
  by_cases hp : predCol ∈ df.cols <;> simp [setScoreCol, hp, h]

/-- Reading the `_pred_score` column right after it was assigned gives back
the predictions. -/
theorem setScoreCol_scores (df : DF) (preds : List ℚ)
    (h : preds.length ≤ df.rows.length) :
    (setScoreCol df preds).rows.map (fun r => r predCol) =
      preds.map Cell.num := by
  simp only [setScoreCol, List.map_map, Function.comp_def, Function.update_same]
  rw [show (fun rp : DRow × ℚ => Cell.num rp.2) = Cell.num ∘ Prod.snd from rfl,
    ← List.map_map, List.map_snd_zip _ _ h]

/-- Claim C8: scoring is idempotent and deterministic.  Fallback: re-running
the pass on the already-scored (mutated) batch reproduces the same
`_pred_score` column.  Learned model: re-running the pass on the DataFrame the
first run mutated succeeds and reproduces the same `_pred_score` column
(`"_pred_score"` is not itself one of the model's feature names). -/
theorem scoring_idempotent :
    (∀ rows : List Row,
      (fallbackPass (fallbackPass rows)).map (fun r => r.pred_score) =
        (fallbackPass rows).map (fun r => r.pred_score)) ∧
    (∀ (featNames : List String) (predictRow : List Cell → ℚ) (df out : DF),
      predCol ∉ featNames →
      learnedScorePass featNames predictRow df = some out →
      ∃ out₂, learnedScorePass featNames predictRow out = some out₂ ∧
        out₂.rows.map (fun r => r predCol) =
          out.rows.map (fun r => r predCol)) := by
  constructor
  · intro rows
    rw [fallbackPass_idem]
  · intro featNames predictRow df out hp h1
    rw [learnedScorePass_eq] at h1
    set df2 := addMissingFeatures featNames df with hdf2
    set preds := df2.rows.map (fun r => predictRow (featNames.map r)) with hpreds
    have hlen : preds.length = df2.rows.length := List.length_map _ _
    have hout : out = setScoreCol df2 preds := (Option.some.inj h1).symm
    have hsub : ∀ c ∈ featNames, c ∈ out.cols := fun c hc => by
      rw [hout]
      exact setScoreCol_cols_sup df2 preds (addMissingFeatures_cols_mem featNames df hc)
    have hkey : out.rows.map (fun r => predictRow (featNames.map r)) = preds := by
      rw [hout]
      simp only [setScoreCol, List.map_map]
      rw [List.map_congr_left
        (g := fun rp : DRow × ℚ => predictRow (featNames.map rp.1))
        (fun rp _ => by
          show predictRow (featNames.map (Function.update rp.1 predCol (Cell.num rp.2))) = _
          rw [map_update_not_mem featNames rp.1 predCol (Cell.num rp.2) hp])]
      rw [show (fun rp : DRow × ℚ => predictRow (featNames.map rp.1)) =
            (fun r : DRow => predictRow (featNames.map r)) ∘ Prod.fst from rfl,
        ← List.map_map, List.map_fst_zip _ _ (le_of_eq hlen.symm)]
    refine ⟨setScoreCol out (out.rows.map (fun r => predictRow (featNames.map r))), ?_, ?_⟩
    · rw [learnedScorePass_eq, addMissingFeatures_id featNames out hsub]
    · rw [hkey]
      have houtlen : out.rows.length = df2.rows.length := by
        rw [hout, setScoreCol_rows_length, hlen, Nat.min_self]
      rw [setScoreCol_scores out preds (by rw [houtlen, hlen]),
        hout, setScoreCol_scores df2 preds (le_of_eq hlen)]

theorem scoring_idempotent_witness :
    (fallbackPass (fallbackPass [rowA, rowB])).map (fun r => r.pred_score) =
      (fallbackPass [rowA, rowB]).map (fun r => r.pred_score) ∧
    ∃ out₂, learnedScorePass ["price", "rating"] (fun _ => 0)
        (setScoreCol (addMissingFeatures ["price", "rating"] dfW)
          ((addMissingFeatures ["price", "rating"] dfW).rows.map
            (fun r => (fun _ => (0 : ℚ)) (["price", "rating"].map r)))) = some out₂ ∧
      out₂.rows.map (fun r => r predCol) =
        (setScoreCol (addMissingFeatures ["price", "rating"] dfW)
          ((addMissingFeatures ["price", "rating"] dfW).rows.map
            (fun r => (fun _ => (0 : ℚ)) (["price", "rating"].map r)))).rows.map
          (fun r => r predCol) :=
  ⟨scoring_idempotent.1 [rowA, rowB],
   scoring_idempotent.2 ["price", "rating"] (fun _ => 0) dfW _
     (by decide) (learnedScorePass_eq _ _ _)⟩

theorem scoresOf_via_proj (rows : List Row) :
    scoresOf rows = scoresFromProj (rows.map dproj) := by
  rw [scoresOf_eq]
  unfold scoresFromProj
  simp only [List.map_map]
  have h1 : rows.map ((fun s : ℚ × ℚ × ℚ => s.1) ∘ dproj) = rows.map defP :=
    List.map_congr_left (fun a _ => rfl)
  have h2 : rows.map ((fun s : ℚ × ℚ × ℚ => s.2.2) ∘ dproj) = rows.map defD :=
    List.map_congr_left (fun a _ => rfl)
  rw [h1, h2]
  exact List.map_congr_left (fun a _ => rfl)

/-- Claim C9: under the fallback heuristic the whole score column is a
function of the defaulted `price`, `rating` and `delivery_in_days` columns
alone: two batches agreeing row-by-row on those (defaulted) fields — however
much they differ in `is_trusted_seller`, `rating_count`, `brand`, `RAM_GB`,
`warranty_months`, `is_replaceable`, `Color`, or the display fields — receive
identical scores. -/
theorem fallback_noninterference (rows₁ rows₂ : List Row)
    (h : rows₁.map dproj = rows₂.map dproj) :
    scoresOf rows₁ = scoresOf rows₂ := by
  rw [scoresOf_via_proj, scoresOf_via_proj, h]

theorem fallback_noninterference_witness :
    scoresOf [rowA, rowB] = scoresOf [rowA', rowB] :=
  fallback_noninterference [rowA, rowB] [rowA', rowB] (by decide)

theorem fallbackPass_final_price_col (rows : List Row) :
    (fallbackPass rows).map (fun r => r.price) =
      rows.map (fun r => some (defP r)) := by
  rw [fallbackPass_def]
  simp only [List.map_map]
  exact List.map_congr_left (fun a _ => rfl)

theorem fallbackPass_final_rating_col (rows : List Row) :
    (fallbackPass rows).map (fun r => r.rating) =
      rows.map (fun r => some (defR r)) := by
  rw [fallbackPass_def]
  simp only [List.map_map]
  exact List.map_congr_left (fun a _ => rfl)

theorem fallbackPass_final_delivery_col (rows : List Row) :
    (fallbackPass rows).map (fun r => r.delivery_in_days) =
      rows.map (fun r => some (defD r)) := by
  rw [fallbackPass_def]
  simp only [List.map_map]
  exact List.map_congr_left (fun a _ => rfl)

theorem setScoreCol_predCol_mem (df : DF) (preds : List ℚ) :
    predCol ∈ (setScoreCol df preds).cols := by
  by_cases hp : predCol ∈ df.cols <;> simp [setScoreCol, hp]

/-- Claim C10: ranking mutates the rows passed in.  Fallback mode: in the
post-call DataFrame the `price`, `rating` and `delivery_in_days` columns hold
the coerced/defaulted values and every row carries `_pred_score`, so whenever
some input row lacked `_pred_score` the post-call DataFrame differs from the
input.  Learned mode: the output DataFrame contains the `_pred_score` column
and every required feature column, so it differs from an input that had no
`_pred_score` column. -/
theorem infer_topk_mutates_input :
    (∀ (rows : List Row) (k : Nat),
      ((inferTopkFallback rows k).1).map (fun r => r.price) =
        rows.map (fun r => some (defP r)) ∧
      ((inferTopkFallback rows k).1).map (fun r => r.rating) =
        rows.map (fun r => some (defR r)) ∧
      ((inferTopkFallback rows k).1).map (fun r => r.delivery_in_days) =
        rows.map (fun r => some (defD r)) ∧
      ∀ r ∈ (inferTopkFallback rows k).1, r.pred_score.isSome) ∧
    (∀ (rows : List Row) (k : Nat),
      (∃ r ∈ rows, r.pred_score = none) → (inferTopkFallback rows k).1 ≠ rows) ∧
    (∀ (featNames : List String) (predictRow : List Cell → ℚ) (df out : DF),
      learnedScorePass featNames predictRow df = some out →
      predCol ∈ out.cols ∧ (∀ c ∈ featNames, c ∈ out.cols) ∧
      (predCol ∉ df.cols → out ≠ df)) := by
  refine ⟨?_, ?_, ?_⟩
  · intro rows k
    exact ⟨fallbackPass_final_price_col rows, fallbackPass_final_rating_col rows,
      fallbackPass_final_delivery_col rows, fun r hr => fallbackPass_scored hr⟩
  · rintro rows k ⟨r, hr, hnone⟩ heq
    rw [← heq] at hr
    have hsome : r.pred_score.isSome := fallbackPass_scored hr
    rw [hnone] at hsome
    cases hsome
  · intro featNames predictRow df out h1
    rw [learnedScorePass_eq] at h1
    have hout := (Option.some.inj h1).symm
    subst hout
    refine ⟨setScoreCol_predCol_mem _ _, ?_, ?_⟩
    · exact fun c hc => setScoreCol_cols_sup _ _
        (addMissingFeatures_cols_mem featNames df hc)
    · intro hnp heq
      exact hnp (heq ▸ setScoreCol_predCol_mem
        (addMissingFeatures featNames df) _)

theorem infer_topk_mutates_input_witness :
    (inferTopkFallback [rowNone] 3).1 ≠ [rowNone] ∧
    ((setScoreCol (addMissingFeatures ["price", "rating"] dfW)
        ((addMissingFeatures ["price", "rating"] dfW).rows.map
          (fun r => (fun _ => (0 : ℚ)) (["price", "rating"].map r)))) ≠ dfW) :=
  ⟨infer_topk_mutates_input.2.1 [rowNone] 3 ⟨rowNone, List.mem_singleton.mpr rfl, rfl⟩,
   (infer_topk_mutates_input.2.2 ["price", "rating"] (fun _ => 0) dfW _
      (learnedScorePass_eq _ _ _)).2.2 (by decide)⟩

theorem flatMap_offers_nil (p : Product) (vs : List Variant)
    (h : ∀ v ∈ vs, v.offers = []) :
    vs.flatMap (fun v => v.offers.map (offerRow p v.specifications)) = [] := by
  induction vs with
  | nil => rfl
  | cons v vs ih =>
      rw [List.flatMap_cons, h v (List.mem_cons_self v vs),
        ih (fun w hw => h w (List.mem_cons_of_mem v hw))]
      rfl

theorem flattenOffers_nil_of_no_offers (p : Product)
    (h : ∀ v ∈ p.variants, v.offers = []) : flattenOffers p = [] :=
  flatMap_offers_nil p p.variants h

/-- Claim C6: a matched catalog entry with zero offers across all its variants
flattens to the empty sequence, and `chat` answers the distinct no-offers
outcome — the ranking/scoring operation is never invoked on zero rows. -/
theorem no_offers_distinct_outcome (p : Product) (k : Nat)
    (h : ∀ v ∈ p.variants, v.offers = []) :
    flattenOffers p = [] ∧
    chatRank (some p) k = ChatOutcome.noOffers p.product_name := by
  have hf := flattenOffers_nil_of_no_offers p h
  refine ⟨hf, ?_⟩
  rw [show chatRank (some p) k =
      (if flattenOffers p = [] then ChatOutcome.noOffers p.product_name
       else ChatOutcome.ranking (inferTopkFallback (flattenOffers p) k).2)
    from rfl, if_pos hf]

theorem no_offers_distinct_outcome_witness :
    flattenOffers prodW = [] ∧
    chatRank (some prodW) 3 = ChatOutcome.noOffers prodW.product_name :=
  no_offers_distinct_outcome prodW 3 (by decide)
